import Mathlib

/-!
Verification of the pointercrate demonlist core against its specification.

The development shallowly embeds the two source files of the repository:

* `pointercrate-demonlist/src/error.rs` — the closed `DemonlistError`
  taxonomy, its stable `error_code` mapping and the `From<sqlx::Error>`
  boundary translation;
* `src/view/demonlist/overview.rs` — the `overview_demons` query and the
  `index` request handler with its time-machine timestamp clamping.

The Position Invariant Manager is part of the repository that is not among
the provided source files; it is modelled from the specification (§4.1) and
clearly marked as such.

Rust `i32`/`i16` values are embedded as `Int`; positions handled by the
Position Invariant Manager are embedded as `Nat` (they are always ≥ 1).
-/

/-- Modelled from the spec: the `RecordStatus` enum of
`pointercrate-demonlist/src/record.rs` is not among the provided source
files; the spec (§3, Record) lists its four states. -/
inductive RecordStatus where
  | approved
  | rejected
  | under_consideration
  | pending
deriving DecidableEq

/-- Modelled from the spec: the Display rendering of `RecordStatus`
(used by the `SubmissionExists` message) renders the state's name. -/
def RecordStatus.display : RecordStatus → String
  | .approved => "approved"
  | .rejected => "rejected"
  | .under_consideration => "under consideration"
  | .pending => "pending"

/-- Modelled from the spec: `MinimalDemon` of
`pointercrate-demonlist/src/demon.rs` is not among the provided source
files; it is a minimal projection of a demon (identity and name), used here
only as the payload of `DemonNameNotUnique`. -/
structure MinimalDemon where
  id : Int
  name : String
deriving DecidableEq

/-- Modelled from the spec: `CoreError` of `pointercrate-core` is outside
this repository. Only the three variants produced by the storage-boundary
translation (spec §7) are needed. -/
inductive CoreError where
  | DatabaseError
  | DatabaseConnectionError
  | InternalServerError
deriving DecidableEq

/-- The closed `DemonlistError` taxonomy of
`pointercrate-demonlist/src/error.rs` (lines 10–178), one constructor per
Rust variant, with the same associated data. -/
inductive DemonlistError where
  | Core (core : CoreError)
  | MalformedVideoUrl
  | BannedFromSubmissions
  | SubmitterNotFound (id : Int)
  | NoteNotFound (note_id : Int) (record_id : Int)
  | CreatorNotFound (demon_id : Int) (player_id : Int)
  | NationalityNotFound (iso_code : String)
  | SubdivisionNotFound (subdivision_code : String) (nation_code : String)
  | PlayerNotFound (player_id : Int)
  | PlayerNotFoundName (player_name : String)
  | DemonNotFound (demon_id : Int)
  | DemonNotFoundName (demon_name : String)
  | DemonNotFoundPosition (demon_position : Int)
  | RecordNotFound (record_id : Int)
  | CreatorExists
  | DuplicateVideo (id : Int)
  | NoNationSet
  | InvalidRequirement
  | InvalidPosition (maximal : Int)
  | InvalidProgress (requirement : Int)
  | SubmissionExists (status : RecordStatus) (existing : Int)
  | PlayerBanned
  | SubmitLegacy
  | Non100Extended
  | InvalidUrlScheme
  | UrlAuthenticated
  | UnsupportedVideoHost
  | InvalidUrlFormat (expected : String)
  | NotYouTube
  | DemonNameNotUnique (demons : List MinimalDemon)
  | NoteEmpty
deriving DecidableEq

/-- Modelled from the spec: the stable codes of `CoreError` are not given
by the spec's table (which covers only demonlist-domain conditions); the
values here are internal-server-range placeholders that no claim depends
on. -/
def CoreError.error_code : CoreError → Nat
  | .DatabaseError => 50003
  | .DatabaseConnectionError => 50009
  | .InternalServerError => 50000

/-- The `error_code` mapping of `impl PointercrateError for DemonlistError`
(`error.rs` lines 183–219), arm for arm. -/
def DemonlistError.error_code : DemonlistError → Nat
  | .Core core => core.error_code
  | .SubmitterNotFound _ => 40401
  | .NoteNotFound _ _ => 40401
  | .CreatorNotFound _ _ => 40401
  | .CreatorExists => 40905
  | .InvalidRequirement => 42212
  | .InvalidPosition _ => 42213
  | .NoteEmpty => 42230
  | .MalformedVideoUrl => 40001
  | .BannedFromSubmissions => 40304
  | .NationalityNotFound _ => 40401
  | .SubdivisionNotFound _ _ => 40401
  | .PlayerNotFound _ => 40401
  | .PlayerNotFoundName _ => 40401
  | .DemonNotFound _ => 40401
  | .DemonNotFoundName _ => 40401
  | .DemonNotFoundPosition _ => 40401
  | .RecordNotFound _ => 40401
  | .DuplicateVideo _ => 40906
  | .NoNationSet => 40907
  | .InvalidProgress _ => 42215
  | .SubmissionExists _ _ => 42217
  | .PlayerBanned => 42218
  | .SubmitLegacy => 42219
  | .Non100Extended => 42220
  | .InvalidUrlScheme => 42222
  | .UrlAuthenticated => 42223
  | .UnsupportedVideoHost => 42224
  | .InvalidUrlFormat _ => 42225
  | .NotYouTube => 42226
  | .DemonNameNotUnique _ => 42228

/-- The Display message of each variant, from the `#[display(fmt = ...)]`
attributes of `error.rs` (interpolation rendered by string concatenation).
The `Core` arm delegates, as in the source. -/
def CoreError.display : CoreError → String
  | .DatabaseError => "database error"
  | .DatabaseConnectionError => "database connection error"
  | .InternalServerError => "internal server error"

/-- Display messages of `DemonlistError` (`error.rs` `#[display]`
attributes). Apostrophes in the Rust literals are written as the escape
`\x27`. -/
def DemonlistError.display : DemonlistError → String
  | .Core core => core.display
  | .MalformedVideoUrl => "Malformed video URL"
  | .BannedFromSubmissions => "You are banned from submitting records to the demonlist!"
  | .SubmitterNotFound id => "No submitter with id " ++ toString id ++ " found"
  | .NoteNotFound note_id record_id =>
      "No note with id " ++ toString note_id ++ " found on record with id " ++ toString record_id
  | .CreatorNotFound demon_id player_id =>
      "Player with id " ++ toString player_id ++ " is no creator of demon with id " ++ toString demon_id
  | .NationalityNotFound iso_code => "No nationality with iso code " ++ iso_code ++ " found"
  | .SubdivisionNotFound subdivision_code nation_code =>
      "No subdivision with code " ++ subdivision_code ++ " found in nation " ++ nation_code
  | .PlayerNotFound player_id => "No player with id " ++ toString player_id ++ " found"
  | .PlayerNotFoundName player_name => "No player with name " ++ player_name ++ " found"
  | .DemonNotFound demon_id => "No demon with id " ++ toString demon_id ++ " found"
  | .DemonNotFoundName demon_name => "No demon with name " ++ demon_name ++ " found"
  | .DemonNotFoundPosition demon_position =>
      "No demon at position " ++ toString demon_position ++ " found"
  | .RecordNotFound record_id => "No record with id " ++ toString record_id ++ " found"
  | .CreatorExists => "This player is already registered as a creator on this demon"
  | .DuplicateVideo id => "This video is already used by record #" ++ toString id
  | .NoNationSet => "Attempt to set subdivision without nation"
  | .InvalidRequirement => "Record requirement needs to be greater than -1 and smaller than 101"
  | .InvalidPosition maximal =>
      "Demon position needs to be greater than or equal to 1 and smaller than or equal to "
        ++ toString maximal
  | .InvalidProgress requirement =>
      "Record progress must lie between " ++ toString requirement ++ " and 100%!"
  | .SubmissionExists status _ => "This record is already " ++ status.display
  | .PlayerBanned => "The given player is banned and thus cannot have non-rejected records on the list!"
  | .SubmitLegacy => "You cannot submit records for legacy demons"
  | .Non100Extended => "Only 100% records can be submitted for the extended section of the list"
  | .InvalidUrlScheme => "Invalid URL scheme. Only \x27http\x27 and \x27https\x27 are supported"
  | .UrlAuthenticated =>
      "The provided URL contains authentication information. For security reasons it has been rejected"
  | .UnsupportedVideoHost =>
      "The given video host is not supported. Supported are \x27youtube\x27, \x27vimeo\x27, \x27everyplay\x27, \x27twitch\x27 and \x27bilibili\x27"
  | .InvalidUrlFormat expected =>
      "The given URL does not lead to a video. The URL format for the given host has to be \x27"
        ++ expected ++ "\x27"
  | .NotYouTube => "The given URL is no YouTube URL"
  | .DemonNameNotUnique _ => "There are multiple demons with the given name"
  | .NoteEmpty => "Notes mustn\x27t be empty!"

/-- Accessor witnessing that `InvalidPosition` carries the maximal legal
position. -/
def DemonlistError.invalidPositionMaximal : DemonlistError → Option Int
  | .InvalidPosition maximal => some maximal
  | _ => none

/-- Accessor witnessing that `InvalidProgress` carries the demon's record
requirement. -/
def DemonlistError.invalidProgressRequirement : DemonlistError → Option Int
  | .InvalidProgress requirement => some requirement
  | _ => none

/-- Accessor witnessing that `SubmissionExists` carries the existing
record's status and id. -/
def DemonlistError.submissionExistsData : DemonlistError → Option (RecordStatus × Int)
  | .SubmissionExists status existing => some (status, existing)
  | _ => none

/-- Accessor witnessing that `DuplicateVideo` carries the existing record's
id. -/
def DemonlistError.duplicateVideoId : DemonlistError → Option Int
  | .DuplicateVideo id => some id
  | _ => none

/-- Accessor witnessing that `InvalidUrlFormat` carries the expected-shape
template. -/
def DemonlistError.invalidUrlFormatExpected : DemonlistError → Option String
  | .InvalidUrlFormat expected => some expected
  | _ => none

/-- The `From<CoreError> for DemonlistError` conversion (`error.rs` lines
222–226). -/
def DemonlistError.ofCore (error : CoreError) : DemonlistError :=
  DemonlistError.Core error

/-- The `sqlx::Error` cases distinguished by the `From<sqlx::Error>`
conversion (`error.rs` lines 228–257): database errors (carrying their
detail), pool closure, pool timeout, a missing column, an unexpected
missing row, and a catch-all for every other `sqlx` error kind. -/
inductive SqlxError where
  | Database (detail : String)
  | PoolClosed
  | PoolTimedOut
  | ColumnNotFound (column : String)
  | RowNotFound
  | Other (detail : String)
deriving DecidableEq

/-- The `From<sqlx::Error> for DemonlistError` conversion (`error.rs` lines
228–257). The second component collects the `error!` log lines emitted by
each arm (the side effect of the Rust code), rendered by concatenation. -/
def demonlistErrorOfSqlx : SqlxError → DemonlistError × List String
  | .Database detail =>
      (DemonlistError.ofCore CoreError.DatabaseError, ["Database error: " ++ detail ++ ". "])
  | .PoolClosed => (DemonlistError.ofCore CoreError.DatabaseConnectionError, [])
  | .PoolTimedOut => (DemonlistError.ofCore CoreError.DatabaseConnectionError, [])
  | .ColumnNotFound column =>
      (DemonlistError.ofCore CoreError.InternalServerError,
        ["Invalid access to column " ++ column ++ ", which does not exist"])
  | .RowNotFound =>
      (DemonlistError.ofCore CoreError.InternalServerError,
        ["Unhandled \x27NotFound\x27, this is a logic or data consistency error"])
  | .Other detail =>
      (DemonlistError.ofCore CoreError.DatabaseError, ["Database error: " ++ detail])

/-- C1: every variant covered by the spec's error-code table maps to
exactly the listed stable code: the eleven generic not-found variants to
40401, `CreatorExists` to 40905, `DuplicateVideo` to 40906, `NoNationSet`
to 40907, `BannedFromSubmissions` to 40304, `MalformedVideoUrl` to 40001,
`InvalidRequirement` to 42212, `InvalidPosition` to 42213,
`InvalidProgress` to 42215, `SubmissionExists` to 42217, `PlayerBanned` to
42218, `SubmitLegacy` to 42219, `Non100Extended` to 42220,
`InvalidUrlScheme` to 42222, `UrlAuthenticated` to 42223,
`UnsupportedVideoHost` to 42224, `InvalidUrlFormat` to 42225, `NotYouTube`
to 42226, `DemonNameNotUnique` to 42228 and `NoteEmpty` to 42230. -/
theorem error_code_table :
    (∀ id, (DemonlistError.SubmitterNotFound id).error_code = 40401)
    ∧ (∀ n r, (DemonlistError.NoteNotFound n r).error_code = 40401)
    ∧ (∀ d p, (DemonlistError.CreatorNotFound d p).error_code = 40401)
    ∧ (∀ c, (DemonlistError.NationalityNotFound c).error_code = 40401)
    ∧ (∀ s n, (DemonlistError.SubdivisionNotFound s n).error_code = 40401)
    ∧ (∀ p, (DemonlistError.PlayerNotFound p).error_code = 40401)
    ∧ (∀ p, (DemonlistError.PlayerNotFoundName p).error_code = 40401)
    ∧ (∀ d, (DemonlistError.DemonNotFound d).error_code = 40401)
    ∧ (∀ d, (DemonlistError.DemonNotFoundName d).error_code = 40401)
    ∧ (∀ d, (DemonlistError.DemonNotFoundPosition d).error_code = 40401)
    ∧ (∀ r, (DemonlistError.RecordNotFound r).error_code = 40401)
    ∧ DemonlistError.CreatorExists.error_code = 40905
    ∧ (∀ id, (DemonlistError.DuplicateVideo id).error_code = 40906)
    ∧ DemonlistError.NoNationSet.error_code = 40907
    ∧ DemonlistError.BannedFromSubmissions.error_code = 40304
    ∧ DemonlistError.MalformedVideoUrl.error_code = 40001
    ∧ DemonlistError.InvalidRequirement.error_code = 42212
    ∧ (∀ m, (DemonlistError.InvalidPosition m).error_code = 42213)
    ∧ (∀ r, (DemonlistError.InvalidProgress r).error_code = 42215)
    ∧ (∀ s e, (DemonlistError.SubmissionExists s e).error_code = 42217)
    ∧ DemonlistError.PlayerBanned.error_code = 42218
    ∧ DemonlistError.SubmitLegacy.error_code = 42219
    ∧ DemonlistError.Non100Extended.error_code = 42220
    ∧ DemonlistError.InvalidUrlScheme.error_code = 42222
    ∧ DemonlistError.UrlAuthenticated.error_code = 42223
    ∧ DemonlistError.UnsupportedVideoHost.error_code = 42224
    ∧ (∀ e, (DemonlistError.InvalidUrlFormat e).error_code = 42225)
    ∧ DemonlistError.NotYouTube.error_code = 42226
    ∧ (∀ ds, (DemonlistError.DemonNameNotUnique ds).error_code = 42228)
    ∧ DemonlistError.NoteEmpty.error_code = 42230 := by
  repeat constructor <;> try (intros; rfl)

/-- C6: the error variants carry the structured data the spec names —
`InvalidPosition` the maximal legal position, `InvalidProgress` the record
requirement, `SubmissionExists` the existing record's status and id,
`DuplicateVideo` the existing record's id, `InvalidUrlFormat` the
expected-shape template — each recoverable from the value, and sufficient
to render the documented message. -/
theorem error_variant_payloads :
    (∀ m, (DemonlistError.InvalidPosition m).invalidPositionMaximal = some m
      ∧ (DemonlistError.InvalidPosition m).display
          = "Demon position needs to be greater than or equal to 1 and smaller than or equal to "
              ++ toString m)
    ∧ (∀ r, (DemonlistError.InvalidProgress r).invalidProgressRequirement = some r
      ∧ (DemonlistError.InvalidProgress r).display
          = "Record progress must lie between " ++ toString r ++ " and 100%!")
    ∧ (∀ s e, (DemonlistError.SubmissionExists s e).submissionExistsData = some (s, e)
      ∧ (DemonlistError.SubmissionExists s e).display
          = "This record is already " ++ s.display)
    ∧ (∀ id, (DemonlistError.DuplicateVideo id).duplicateVideoId = some id
      ∧ (DemonlistError.DuplicateVideo id).display
          = "This video is already used by record #" ++ toString id)
    ∧ (∀ ex, (DemonlistError.InvalidUrlFormat ex).invalidUrlFormatExpected = some ex
      ∧ (DemonlistError.InvalidUrlFormat ex).display
          = "The given URL does not lead to a video. The URL format for the given host has to be \x27"
              ++ ex ++ "\x27") := by
  refine ⟨fun m => ⟨rfl, rfl⟩, fun r => ⟨rfl, rfl⟩, fun s e => ⟨rfl, rfl⟩,
    fun id => ⟨rfl, rfl⟩, fun ex => ⟨rfl, rfl⟩⟩

/-- C8: the storage boundary translates every `sqlx` failure: pool closure
and pool timeout become `DatabaseConnectionError`; database errors and any
unlisted `sqlx` error become the generic `DatabaseError` with the full
detail logged; a missing column or an unexpected missing row become
`InternalServerError`, logged loudly (a non-empty log line), never
silently swallowed. -/
theorem sqlx_boundary_translation :
    (∀ d, (demonlistErrorOfSqlx (SqlxError.Database d)).1
        = DemonlistError.Core CoreError.DatabaseError
      ∧ (demonlistErrorOfSqlx (SqlxError.Database d)).2 ≠ [])
    ∧ (demonlistErrorOfSqlx SqlxError.PoolClosed).1
        = DemonlistError.Core CoreError.DatabaseConnectionError
    ∧ (demonlistErrorOfSqlx SqlxError.PoolTimedOut).1
        = DemonlistError.Core CoreError.DatabaseConnectionError
    ∧ (∀ c, (demonlistErrorOfSqlx (SqlxError.ColumnNotFound c)).1
        = DemonlistError.Core CoreError.InternalServerError
      ∧ (demonlistErrorOfSqlx (SqlxError.ColumnNotFound c)).2 ≠ [])
    ∧ ((demonlistErrorOfSqlx SqlxError.RowNotFound).1
        = DemonlistError.Core CoreError.InternalServerError
      ∧ (demonlistErrorOfSqlx SqlxError.RowNotFound).2 ≠ [])
    ∧ (∀ d, (demonlistErrorOfSqlx (SqlxError.Other d)).1
        = DemonlistError.Core CoreError.DatabaseError
      ∧ (demonlistErrorOfSqlx (SqlxError.Other d)).2 ≠ []) := by
  refine ⟨fun d => ⟨rfl, by simp [demonlistErrorOfSqlx]⟩, rfl, rfl,
    fun c => ⟨rfl, by simp [demonlistErrorOfSqlx]⟩,
    ⟨rfl, by simp [demonlistErrorOfSqlx]⟩,
    fun d => ⟨rfl, by simp [demonlistErrorOfSqlx]⟩⟩

/-- C9: every `sqlx` error converts into the `Core(...)` wrapper — one of
`DatabaseError`, `DatabaseConnectionError` or `InternalServerError` — so a
storage failure can never impersonate a caller-correctable domain
validation variant. -/
theorem sqlx_always_core :
    ∀ e : SqlxError, ∃ c : CoreError,
      (demonlistErrorOfSqlx e).1 = DemonlistError.Core c
      ∧ (c = CoreError.DatabaseError ∨ c = CoreError.DatabaseConnectionError
          ∨ c = CoreError.InternalServerError) := by
  intro e
  cases e with
  | Database d => exact ⟨CoreError.DatabaseError, rfl, Or.inl rfl⟩
  | PoolClosed => exact ⟨CoreError.DatabaseConnectionError, rfl, Or.inr (Or.inl rfl)⟩
  | PoolTimedOut => exact ⟨CoreError.DatabaseConnectionError, rfl, Or.inr (Or.inl rfl)⟩
  | ColumnNotFound c => exact ⟨CoreError.InternalServerError, rfl, Or.inr (Or.inr rfl)⟩
  | RowNotFound => exact ⟨CoreError.InternalServerError, rfl, Or.inr (Or.inr rfl)⟩
  | Other d => exact ⟨CoreError.DatabaseError, rfl, Or.inl rfl⟩

/-- Chrono's `NaiveDateTime`, embedded as its calendar fields; comparison
is lexicographic (the order chrono gives for valid datetimes). -/
structure NaiveDateTime where
  year : Int
  month : Nat
  day : Nat
  hour : Nat
  minute : Nat
  second : Nat
deriving DecidableEq

/-- Strict lexicographic comparison of `NaiveDateTime`, the embedding of
chrono's `<` on naive datetimes. -/
def NaiveDateTime.ltb (a b : NaiveDateTime) : Bool :=
  a.year < b.year
    || (a.year == b.year && (a.month < b.month
    || (a.month == b.month && (a.day < b.day
    || (a.day == b.day && (a.hour < b.hour
    || (a.hour == b.hour && (a.minute < b.minute
    || (a.minute == b.minute && a.second < b.second)))))))))

theorem NaiveDateTime.ltb_irrefl (a : NaiveDateTime) : a.ltb a = false := by
  simp [NaiveDateTime.ltb]

theorem NaiveDateTime.ltb_trans {a b c : NaiveDateTime}
    (hab : a.ltb b = true) (hbc : b.ltb c = true) : a.ltb c = true := by
  simp only [NaiveDateTime.ltb, Bool.or_eq_true, Bool.and_eq_true, decide_eq_true_eq,
    beq_iff_eq] at hab hbc ⊢
  omega

/-- The hard-coded earliest time-machine boundary of the `index` handler
(`overview.rs` line 136): midnight of 2017-08-05. -/
def EARLIEST_DATE : NaiveDateTime :=
  ⟨2017, 8, 5, 0, 0, 0⟩

/-- The timestamp preprocessing of the `index` handler (`overview.rs` lines
140–149): both `if`s test the originally supplied `when`; the first clamps
a too-early timestamp to `EARLIEST_DATE`, the second discards a timestamp
at or after now. -/
def clampWhen (specifiedWhen : Option NaiveDateTime) (now : NaiveDateTime) :
    Option NaiveDateTime :=
  match specifiedWhen with
  | none => none
  | some w =>
      let afterClamp := if w.ltb EARLIEST_DATE then some EARLIEST_DATE else some w
      if w.ltb now then afterClamp else none

/-- A row of the `players` table, as used by `overview_demons`: identity,
name and the `link_banned` flag. -/
structure DbPlayer where
  id : Int
  name : String
  link_banned : Bool
deriving DecidableEq

/-- A row of the `demons` table, with the columns `overview_demons` touches
(`position` is nullable). -/
structure DbDemon where
  id : Int
  position : Option Int
  name : String
  publisher : Int
  verifier : Int
  video : Option String
deriving DecidableEq

/-- A row returned by the storage engine's `list_at($1)` function: the
historical demons table at the queried instant (every returned row holds a
non-null historical position, as the query's `position!` annotation
asserts). -/
structure HistoricalDemon where
  id : Int
  position : Int
  name : String
  publisher : Int
  verifier : Int
  video : Option String
deriving DecidableEq

/-- The `OverviewDemon` projection of `overview.rs` lines 17–24. -/
structure OverviewDemon where
  id : Int
  position : Int
  name : String
  publisher : String
  video : Option String
deriving DecidableEq

/-- The repository state visible to `overview_demons`: the two live tables
and the storage engine's `list_at` historical query (an external
collaborator, spec §6, modelled as an abstract function of the
timestamp). -/
structure Database where
  demons : List DbDemon
  players : List DbPlayer
  list_at : NaiveDateTime → List HistoricalDemon

/-- Row lookup in the `players` table by primary key (the SQL `INNER JOIN
players ON ... = players.id`; player ids are the table's primary key, so
at most one row matches). -/
def lookupPlayer (players : List DbPlayer) (pid : Int) : Option DbPlayer :=
  players.find? (fun p => p.id == pid)

/-- The live `SELECT` row construction of `overview_demons` (`overview.rs`
lines 38–45): a demon contributes a row when its position is non-null and
both joins succeed; the video column is `NULL` when the verifier is
link-banned. -/
def liveRow (players : List DbPlayer) (d : DbDemon) : Option OverviewDemon :=
  match d.position with
  | none => none
  | some pos =>
      match lookupPlayer players d.publisher, lookupPlayer players d.verifier with
      | some pub, some ver =>
          some ⟨d.id, pos, d.name, pub.name, if ver.link_banned then none else d.video⟩
      | _, _ => none

/-- The historical `SELECT` row construction of `overview_demons`
(`overview.rs` lines 46–53), over `list_at($1)` rows. -/
def histRow (players : List DbPlayer) (h : HistoricalDemon) : Option OverviewDemon :=
  match lookupPlayer players h.publisher, lookupPlayer players h.verifier with
  | some pub, some ver =>
      some ⟨h.id, h.position, h.name, pub.name, if ver.link_banned then none else h.video⟩
  | _, _ => none

/-- Result ordering of both `overview_demons` queries: ascending by
position (the SQL `ORDER BY position`). -/
def byPosition (a b : OverviewDemon) : Prop :=
  a.position ≤ b.position

instance : DecidableRel byPosition :=
  fun a b => inferInstanceAs (Decidable (a.position ≤ b.position))

instance : IsTotal OverviewDemon byPosition :=
  ⟨fun a b => Int.le_total a.position b.position⟩

instance : IsTrans OverviewDemon byPosition :=
  ⟨fun _ _ _ hab hbc => le_trans hab hbc⟩

/-- The `overview_demons` function (`overview.rs` lines 36–55): with no
timestamp, the live join ordered by position; with a timestamp, the
`list_at` join ordered by position. -/
def overview_demons (db : Database) (atTime : Option NaiveDateTime) : List OverviewDemon :=
  match atTime with
  | none => List.insertionSort byPosition (db.demons.filterMap (liveRow db.players))
  | some t => List.insertionSort byPosition ((db.list_at t).filterMap (histRow db.players))

/-- The demonlist overview produced by the `index` handler (`overview.rs`
lines 133–154) for a request carrying `specifiedWhen`, at current time
`now`: the timestamp is preprocessed by `clampWhen` and handed to
`overview_demons` (through `DemonlistOverview::load`). -/
def indexOverview (db : Database) (specifiedWhen : Option NaiveDateTime)
    (now : NaiveDateTime) : List OverviewDemon :=
  overview_demons db (clampWhen specifiedWhen now)

theorem liveRow_eq_some_iff {players : List DbPlayer} {d : DbDemon} {e : OverviewDemon} :
    liveRow players d = some e
      ↔ ∃ pos pub ver, d.position = some pos
          ∧ lookupPlayer players d.publisher = some pub
          ∧ lookupPlayer players d.verifier = some ver
          ∧ e = ⟨d.id, pos, d.name, pub.name, if ver.link_banned then none else d.video⟩ := by
  unfold liveRow
  rcases hpos : d.position with _ | pos
  · simp [hpos]
  · rcases hpub : lookupPlayer players d.publisher with _ | pub
      <;> rcases hver : lookupPlayer players d.verifier with _ | ver
      <;> simp
      <;> try exact eq_comm

theorem histRow_eq_some_iff {players : List DbPlayer} {h : HistoricalDemon}
    {e : OverviewDemon} :
    histRow players h = some e
      ↔ ∃ pub ver, lookupPlayer players h.publisher = some pub
          ∧ lookupPlayer players h.verifier = some ver
          ∧ e = ⟨h.id, h.position, h.name, pub.name, if ver.link_banned then none else h.video⟩ := by
  unfold histRow
  rcases hpub : lookupPlayer players h.publisher with _ | pub
    <;> rcases hver : lookupPlayer players h.verifier with _ | ver
    <;> simp
    <;> try exact eq_comm

theorem filterMap_liveRow_length (players : List DbPlayer) (l : List DbDemon)
    (hRI : ∀ d ∈ l, (lookupPlayer players d.publisher).isSome
      ∧ (lookupPlayer players d.verifier).isSome) :
    (l.filterMap (liveRow players)).length
      = (l.filter (fun d => d.position.isSome)).length := by
  induction l with
  | nil => rfl
  | cons d l ih =>
      have hd := hRI d (List.mem_cons_self d l)
      have hl := fun x hx => hRI x (List.mem_cons_of_mem d hx)
      rcases Option.isSome_iff_exists.mp hd.1 with ⟨pub, hpub⟩
      rcases Option.isSome_iff_exists.mp hd.2 with ⟨ver, hver⟩
      rcases hpos : d.position with _ | pos
      · simpa [List.filterMap_cons, List.filter_cons, liveRow, hpos] using ih hl
      · simpa [List.filterMap_cons, List.filter_cons, liveRow, hpos, hpub, hver] using ih hl

theorem filterMap_histRow_length (players : List DbPlayer) (l : List HistoricalDemon)
    (hRI : ∀ h ∈ l, (lookupPlayer players h.publisher).isSome
      ∧ (lookupPlayer players h.verifier).isSome) :
    (l.filterMap (histRow players)).length = l.length := by
  induction l with
  | nil => rfl
  | cons h l ih =>
      have hh := hRI h (List.mem_cons_self h l)
      have hl := fun x hx => hRI x (List.mem_cons_of_mem h hx)
      rcases Option.isSome_iff_exists.mp hh.1 with ⟨pub, hpub⟩
      rcases Option.isSome_iff_exists.mp hh.2 with ⟨ver, hver⟩
      simpa [List.filterMap_cons, histRow, hpub, hver] using ih hl

/-- C5: `overview_demons` with no timestamp returns, directly from the live
tables, one `{id, position, name, publisher, video}` entry per demon whose
position is non-null (null positions excluded), sorted ascending by
position; with a timestamp it returns the `list_at` historical rows,
likewise sorted ascending by position. Referential integrity of the
publisher/verifier joins is assumed, as the database enforces it. -/
theorem overview_demons_spec (db : Database) (t : NaiveDateTime)
    (hLive : ∀ d ∈ db.demons, (lookupPlayer db.players d.publisher).isSome
      ∧ (lookupPlayer db.players d.verifier).isSome)
    (hHist : ∀ h ∈ db.list_at t, (lookupPlayer db.players h.publisher).isSome
      ∧ (lookupPlayer db.players h.verifier).isSome) :
    List.Sorted byPosition (overview_demons db none)
    ∧ List.Sorted byPosition (overview_demons db (some t))
    ∧ (overview_demons db none).length
        = (db.demons.filter (fun d => d.position.isSome)).length
    ∧ (∀ e, e ∈ overview_demons db none
        ↔ ∃ d ∈ db.demons, ∃ pos pub ver,
            d.position = some pos
            ∧ lookupPlayer db.players d.publisher = some pub
            ∧ lookupPlayer db.players d.verifier = some ver
            ∧ e = ⟨d.id, pos, d.name, pub.name, if ver.link_banned then none else d.video⟩)
    ∧ (overview_demons db (some t)).length = (db.list_at t).length
    ∧ (∀ e, e ∈ overview_demons db (some t)
        ↔ ∃ h ∈ db.list_at t, ∃ pub ver,
            lookupPlayer db.players h.publisher = some pub
            ∧ lookupPlayer db.players h.verifier = some ver
            ∧ e = ⟨h.id, h.position, h.name, pub.name,
                    if ver.link_banned then none else h.video⟩) := by
  refine ⟨List.sorted_insertionSort byPosition _, List.sorted_insertionSort byPosition _,
    ?_, ?_, ?_, ?_⟩
  · rw [overview_demons, (List.perm_insertionSort byPosition _).length_eq]
    exact filterMap_liveRow_length db.players db.demons hLive
  · intro e
    rw [overview_demons, (List.perm_insertionSort byPosition _).mem_iff, List.mem_filterMap]
    constructor
    · rintro ⟨d, hd, hrow⟩
      exact ⟨d, hd, liveRow_eq_some_iff.mp hrow⟩
    · rintro ⟨d, hd, hrow⟩
      exact ⟨d, hd, liveRow_eq_some_iff.mpr hrow⟩
  · rw [overview_demons, (List.perm_insertionSort byPosition _).length_eq]
    exact filterMap_histRow_length db.players (db.list_at t) hHist
  · intro e
    rw [overview_demons, (List.perm_insertionSort byPosition _).mem_iff, List.mem_filterMap]
    constructor
    · rintro ⟨h, hh, hrow⟩
      exact ⟨h, hh, histRow_eq_some_iff.mp hrow⟩
    · rintro ⟨h, hh, hrow⟩
      exact ⟨h, hh, histRow_eq_some_iff.mpr hrow⟩

/-- C7: a verifier's `link_banned` flag suppresses video display without
removing the demon: in the live overview and in every historical overview,
a demon whose verifier is link-banned still appears, with a null video
field, while an unbanned verifier's demon keeps its stored video URL (the
entry's video field is null exactly if `link_banned` is set). -/
theorem link_banned_suppresses_video (db : Database) (t : NaiveDateTime)
    (d : DbDemon) (pos : Int) (pub ver : DbPlayer)
    (hd : d ∈ db.demons) (hp : d.position = some pos)
    (hpub : lookupPlayer db.players d.publisher = some pub)
    (hver : lookupPlayer db.players d.verifier = some ver) :
    ((⟨d.id, pos, d.name, pub.name,
        if ver.link_banned then none else d.video⟩ : OverviewDemon)
      ∈ overview_demons db none)
    ∧ ∀ h ∈ db.list_at t, ∀ pub2 ver2 : DbPlayer,
        lookupPlayer db.players h.publisher = some pub2 →
        lookupPlayer db.players h.verifier = some ver2 →
        (⟨h.id, h.position, h.name, pub2.name,
            if ver2.link_banned then none else h.video⟩ : OverviewDemon)
          ∈ overview_demons db (some t) := by
  constructor
  · rw [overview_demons, (List.perm_insertionSort byPosition _).mem_iff, List.mem_filterMap]
    exact ⟨d, hd, liveRow_eq_some_iff.mpr ⟨pos, pub, ver, hp, hpub, hver, rfl⟩⟩
  · intro h hh pub2 ver2 hpub2 hver2
    rw [overview_demons, (List.perm_insertionSort byPosition _).mem_iff, List.mem_filterMap]
    exact ⟨h, hh, histRow_eq_some_iff.mpr ⟨pub2, ver2, hpub2, hver2, rfl⟩⟩

/-- C3: a requested timestamp strictly before the earliest known history
boundary is clamped, not rejected: the overview is computed as if the
timestamp were the boundary; a timestamp exactly equal to the boundary is
used unchanged. (The current time lies after the 2017 boundary.) -/
theorem clamp_before_boundary (db : Database) (t now : NaiveDateTime)
    (hE : EARLIEST_DATE.ltb now = true) (ht : t.ltb EARLIEST_DATE = true) :
    indexOverview db (some t) now = indexOverview db (some EARLIEST_DATE) now
    ∧ clampWhen (some t) now = some EARLIEST_DATE
    ∧ clampWhen (some EARLIEST_DATE) now = some EARLIEST_DATE := by
  have htn : t.ltb now = true := NaiveDateTime.ltb_trans ht hE
  have h1 : clampWhen (some t) now = some EARLIEST_DATE := by
    simp [clampWhen, ht, htn]
  have h2 : clampWhen (some EARLIEST_DATE) now = some EARLIEST_DATE := by
    simp [clampWhen, NaiveDateTime.ltb_irrefl, hE]
  exact ⟨by rw [indexOverview, indexOverview, h1, h2], h1, h2⟩

/-- C4: a requested timestamp at or after the current time is discarded:
the request is handled exactly like a request with no timestamp, returning
the live current ordering; in particular reconstructing at `now` itself
yields the live current ordering. -/
theorem future_timestamp_is_live (db : Database) (t now : NaiveDateTime)
    (h : t.ltb now = false) :
    clampWhen (some t) now = none
    ∧ indexOverview db (some t) now = indexOverview db none now
    ∧ indexOverview db (some t) now = overview_demons db none
    ∧ indexOverview db (some now) now = overview_demons db none := by
  have h1 : clampWhen (some t) now = none := by
    simp [clampWhen, h]
  have h2 : clampWhen (some now) now = none := by
    simp [clampWhen, NaiveDateTime.ltb_irrefl]
  refine ⟨h1, ?_, ?_, ?_⟩
  · rw [indexOverview, indexOverview, h1]
    rfl
  · rw [indexOverview, h1]
  · rw [indexOverview, h2]

/-- C10: the earliest history boundary used for clamping is the hard-coded
compile-time constant 2017-08-05 00:00:00, not derived from the stored
history events: every timestamp earlier than it is mapped to exactly that
date, for every database (hence regardless of the history table's
contents). -/
theorem earliest_boundary_is_constant :
    EARLIEST_DATE = ⟨2017, 8, 5, 0, 0, 0⟩
    ∧ ∀ (db : Database) (t now : NaiveDateTime),
        EARLIEST_DATE.ltb now = true → t.ltb EARLIEST_DATE = true →
        clampWhen (some t) now = some EARLIEST_DATE
        ∧ indexOverview db (some t) now = overview_demons db (some EARLIEST_DATE) := by
  refine ⟨rfl, fun db t now hE ht => ?_⟩
  have htn : t.ltb now = true := NaiveDateTime.ltb_trans ht hE
  have h1 : clampWhen (some t) now = some EARLIEST_DATE := by
    simp [clampWhen, ht, htn]
  exact ⟨h1, by rw [indexOverview, h1]⟩

/-- Concrete sample publisher for witness evaluation. -/
def samplePublisher : DbPlayer :=
  ⟨1, "publisher", false⟩

/-- Concrete sample verifier (not link-banned). -/
def sampleVerifier : DbPlayer :=
  ⟨2, "verifier", false⟩

/-- Concrete sample verifier with `link_banned` set. -/
def sampleBannedVerifier : DbPlayer :=
  ⟨3, "banned verifier", true⟩

/-- Concrete ranked demon whose verifier is not link-banned. -/
def sampleDemonA : DbDemon :=
  ⟨10, some 1, "Demon A", 1, 2, some "videoA"⟩

/-- Concrete ranked demon whose verifier is link-banned. -/
def sampleDemonB : DbDemon :=
  ⟨11, some 2, "Demon B", 1, 3, some "videoB"⟩

/-- Concrete demon with a null position (soft-removed from the list). -/
def sampleDemonC : DbDemon :=
  ⟨12, none, "Demon C", 1, 2, some "videoC"⟩

/-- Concrete historical row, as returned by `list_at`. -/
def sampleHist : HistoricalDemon :=
  ⟨10, 1, "Demon A", 1, 3, some "videoA"⟩

/-- Concrete sample database; its `list_at` returns `sampleHist` at every
instant. -/
def sampleDb : Database :=
  ⟨[sampleDemonA, sampleDemonB, sampleDemonC],
    [samplePublisher, sampleVerifier, sampleBannedVerifier],
    fun _ => [sampleHist]⟩

/-- Concrete current time for witness evaluation (after the 2017 boundary). -/
def sampleNow : NaiveDateTime :=
  ⟨2020, 1, 1, 12, 0, 0⟩

/-- Concrete timestamp before the earliest boundary. -/
def sampleEarly : NaiveDateTime :=
  ⟨2016, 3, 4, 5, 6, 7⟩

/-- Concrete timestamp after `sampleNow` (in the future). -/
def sampleFuture : NaiveDateTime :=
  ⟨2021, 1, 1, 0, 0, 0⟩

theorem clamp_before_boundary_witness :
    EARLIEST_DATE.ltb sampleNow = true
    ∧ sampleEarly.ltb EARLIEST_DATE = true
    ∧ (indexOverview sampleDb (some sampleEarly) sampleNow
        = indexOverview sampleDb (some EARLIEST_DATE) sampleNow
      ∧ clampWhen (some sampleEarly) sampleNow = some EARLIEST_DATE
      ∧ clampWhen (some EARLIEST_DATE) sampleNow = some EARLIEST_DATE) :=
  ⟨by decide, by decide,
    clamp_before_boundary sampleDb sampleEarly sampleNow (by decide) (by decide)⟩

theorem future_timestamp_is_live_witness :
    sampleFuture.ltb sampleNow = false
    ∧ (clampWhen (some sampleFuture) sampleNow = none
      ∧ indexOverview sampleDb (some sampleFuture) sampleNow
          = indexOverview sampleDb none sampleNow
      ∧ indexOverview sampleDb (some sampleFuture) sampleNow = overview_demons sampleDb none
      ∧ indexOverview sampleDb (some sampleNow) sampleNow = overview_demons sampleDb none) :=
  ⟨by decide, future_timestamp_is_live sampleDb sampleFuture sampleNow (by decide)⟩

theorem earliest_boundary_is_constant_witness :
    EARLIEST_DATE = ⟨2017, 8, 5, 0, 0, 0⟩
    ∧ EARLIEST_DATE.ltb sampleNow = true
    ∧ sampleEarly.ltb EARLIEST_DATE = true
    ∧ (clampWhen (some sampleEarly) sampleNow = some EARLIEST_DATE
      ∧ indexOverview sampleDb (some sampleEarly) sampleNow
          = overview_demons sampleDb (some EARLIEST_DATE)) :=
  ⟨rfl, by decide, by decide,
    earliest_boundary_is_constant.2 sampleDb sampleEarly sampleNow (by decide) (by decide)⟩

theorem overview_demons_spec_witness :
    (∀ d ∈ sampleDb.demons, (lookupPlayer sampleDb.players d.publisher).isSome
      ∧ (lookupPlayer sampleDb.players d.verifier).isSome)
    ∧ (∀ h ∈ sampleDb.list_at sampleNow, (lookupPlayer sampleDb.players h.publisher).isSome
      ∧ (lookupPlayer sampleDb.players h.verifier).isSome)
    ∧ (List.Sorted byPosition (overview_demons sampleDb none)
      ∧ List.Sorted byPosition (overview_demons sampleDb (some sampleNow))
      ∧ (overview_demons sampleDb none).length
          = (sampleDb.demons.filter (fun d => d.position.isSome)).length
      ∧ (∀ e, e ∈ overview_demons sampleDb none
          ↔ ∃ d ∈ sampleDb.demons, ∃ pos pub ver,
              d.position = some pos
              ∧ lookupPlayer sampleDb.players d.publisher = some pub
              ∧ lookupPlayer sampleDb.players d.verifier = some ver
              ∧ e = ⟨d.id, pos, d.name, pub.name, if ver.link_banned then none else d.video⟩)
      ∧ (overview_demons sampleDb (some sampleNow)).length
          = (sampleDb.list_at sampleNow).length
      ∧ (∀ e, e ∈ overview_demons sampleDb (some sampleNow)
          ↔ ∃ h ∈ sampleDb.list_at sampleNow, ∃ pub ver,
              lookupPlayer sampleDb.players h.publisher = some pub
              ∧ lookupPlayer sampleDb.players h.verifier = some ver
              ∧ e = ⟨h.id, h.position, h.name, pub.name,
                      if ver.link_banned then none else h.video⟩)) :=
  ⟨by decide, by decide,
    overview_demons_spec sampleDb sampleNow (by decide) (by decide)⟩

theorem link_banned_suppresses_video_witness :
    sampleDemonB ∈ sampleDb.demons
    ∧ sampleDemonB.position = some 2
    ∧ lookupPlayer sampleDb.players sampleDemonB.publisher = some samplePublisher
    ∧ lookupPlayer sampleDb.players sampleDemonB.verifier = some sampleBannedVerifier
    ∧ (((⟨sampleDemonB.id, 2, sampleDemonB.name, samplePublisher.name,
          if sampleBannedVerifier.link_banned then none
          else sampleDemonB.video⟩ : OverviewDemon)
        ∈ overview_demons sampleDb none)
      ∧ ∀ h ∈ sampleDb.list_at sampleNow, ∀ pub2 ver2 : DbPlayer,
          lookupPlayer sampleDb.players h.publisher = some pub2 →
          lookupPlayer sampleDb.players h.verifier = some ver2 →
          (⟨h.id, h.position, h.name, pub2.name,
              if ver2.link_banned then none else h.video⟩ : OverviewDemon)
            ∈ overview_demons sampleDb (some sampleNow)) :=
  ⟨by decide, by decide, by decide, by decide,
    link_banned_suppresses_video sampleDb sampleNow sampleDemonB 2 samplePublisher
      sampleBannedVerifier (by decide) (by decide) (by decide) (by decide)⟩

/-- Modelled from the spec: a demon row as the Position Invariant Manager
(§4.1) sees it — identity and nullable position. The manager itself is part
of the repository that is not among the provided source files; §4.1 is its
contract. Positions are embedded as `Nat` (they are 1-based). -/
structure PimDemon where
  id : Nat
  position : Option Nat
deriving DecidableEq

/-- Positions of all demons holding a non-null position. -/
def rankedPositions (s : List PimDemon) : List Nat :=
  s.filterMap (fun d => d.position)

/-- The spec's contiguity invariant (§3, §8.1): the non-null positions are
exactly `{1, ..., count}` — as multisets, they are a permutation of
`[1, ..., count]`, which forces no duplicates and no gaps. -/
def contiguous (s : List PimDemon) : Prop :=
  (rankedPositions s).Perm (List.range' 1 (rankedPositions s).length)

/-- Modelled from the spec: `current_max_position()` (§4.1) — the largest
held position (0 on an empty list). -/
def maxPosition (s : List PimDemon) : Nat :=
  (rankedPositions s).foldr max 0

/-- A fresh repository-assigned identifier for a newly inserted demon
(larger than every existing id). -/
def freshId (s : List PimDemon) : Nat :=
  (s.map (fun d => d.id)).foldr max 0 + 1

/-- Apply a position transformation to a demon, leaving a null position
null. -/
def posApply (f : Nat → Nat) (d : PimDemon) : PimDemon :=
  { d with position := d.position.map f }

/-- Insert shift (§4.1): every position ≥ the target is shifted +1. -/
def insShift (target : Nat) (p : Nat) : Nat :=
  if target ≤ p then p + 1 else p

/-- Removal shift (§4.1): every position greater than the vacated one is
shifted -1. -/
def remShift (src : Nat) (p : Nat) : Nat :=
  if src < p then p - 1 else p

/-- Move shift (§4.1): the intervening positions are shifted by ∓1 in the
direction of travel. -/
def moveShift (src target : Nat) (p : Nat) : Nat :=
  if src < target then
    if src < p ∧ p ≤ target then p - 1 else p
  else
    if target ≤ p ∧ p < src then p + 1 else p

/-- Modelled from the spec: `insert(demon, target_position)` (§4.1). The
target must satisfy `1 <= target <= current_max_position() + 1`, else the
operation fails with `InvalidPosition{maximal}`; demons at position ≥
target are shifted +1 and the new demon (with a fresh repository id) takes
the target position. -/
def pimInsert (s : List PimDemon) (target : Nat) :
    Except DemonlistError (List PimDemon) :=
  if 1 ≤ target ∧ target ≤ maxPosition s + 1 then
    Except.ok (⟨freshId s, some target⟩ :: s.map (posApply (insShift target)))
  else
    Except.error (DemonlistError.InvalidPosition ((maxPosition s : Int) + 1))

/-- Modelled from the spec: `move(demon_id, new_position)` (§4.1): no-op if
source equals target, shift of the intervening positions by ∓1 otherwise;
a target outside `[1, current_max_position()]` is rejected, and a missing
(or unranked) demon is reported as not found. -/
def pimMove (s : List PimDemon) (id target : Nat) :
    Except DemonlistError (List PimDemon) :=
  match s.find? (fun d => d.id == id) with
  | none => Except.error (DemonlistError.DemonNotFound (id : Int))
  | some d =>
      match d.position with
      | none => Except.error (DemonlistError.DemonNotFound (id : Int))
      | some src =>
          if src = target then
            Except.ok s
          else if 1 ≤ target ∧ target ≤ maxPosition s then
            Except.ok (s.map (fun e =>
              if e.id = id then { e with position := some target }
              else posApply (moveShift src target) e))
          else
            Except.error (DemonlistError.InvalidPosition (maxPosition s : Int))

/-- Modelled from the spec: `remove(demon_id)` (§4.1): the demon's position
is cleared (soft removal) and every greater position is shifted down by 1;
removing an already-unranked demon changes nothing. -/
def pimRemove (s : List PimDemon) (id : Nat) :
    Except DemonlistError (List PimDemon) :=
  match s.find? (fun d => d.id == id) with
  | none => Except.error (DemonlistError.DemonNotFound (id : Int))
  | some d =>
      match d.position with
      | none => Except.ok s
      | some src =>
          Except.ok (s.map (fun e =>
            if e.id = id then { e with position := none }
            else posApply (remShift src) e))

/-- An operation of the Position Invariant Manager (§4.1). -/
inductive PimOp where
  | insert (target : Nat)
  | move (id : Nat) (target : Nat)
  | remove (id : Nat)

/-- Run one operation; a rejected operation leaves the state unchanged (the
failed transaction is rolled back, §4.1/§7). -/
def applyPimOp (s : List PimDemon) : PimOp → List PimDemon
  | .insert t =>
      match pimInsert s t with
      | .ok s2 => s2
      | .error _ => s
  | .move id t =>
      match pimMove s id t with
      | .ok s2 => s2
      | .error _ => s
  | .remove id =>
      match pimRemove s id with
      | .ok s2 => s2
      | .error _ => s

/-- Run a sequence of operations from the empty list. -/
def applyPimOps (ops : List PimOp) : List PimDemon :=
  ops.foldl applyPimOp []

/-- Demon ids are pairwise distinct (the repository's primary key). -/
def nodupIds (s : List PimDemon) : Prop :=
  (s.map (fun d => d.id)).Nodup

theorem mem_le_foldr_max {x : Nat} {l : List Nat} (h : x ∈ l) :
    x ≤ l.foldr max 0 := by
  induction l with
  | nil => cases h
  | cons a l ih =>
      rcases List.mem_cons.mp h with rfl | h
      · exact Nat.le_max_left _ _
      · exact le_trans (ih h) (Nat.le_max_right _ _)

theorem foldr_max_perm {l1 l2 : List Nat} (h : l1.Perm l2) :
    l1.foldr max 0 = l2.foldr max 0 := by
  induction h with
  | nil => rfl
  | cons a _ ih => simp [List.foldr_cons, ih]
  | swap a b l => simp [List.foldr_cons, Nat.max_left_comm]
  | trans _ _ ih1 ih2 => exact ih1.trans ih2

theorem foldr_max_range' (s n : Nat) :
    (List.range' s n).foldr max 0 = if n = 0 then 0 else s + n - 1 := by
  induction n generalizing s with
  | zero => rfl
  | succ n ih =>
      rw [List.range'_succ, List.foldr_cons, ih (s + 1)]
      rcases Nat.eq_zero_or_pos n with rfl | hn
      · simp
      · have : n ≠ 0 := Nat.pos_iff_ne_zero.mp hn
        simp only [this, if_false, Nat.succ_ne_zero, if_neg]
        omega

/-- Under contiguity, the maximal held position is the count of ranked
demons. -/
theorem maxPosition_eq_length {s : List PimDemon} (h : contiguous s) :
    maxPosition s = (rankedPositions s).length := by
  unfold maxPosition
  rw [foldr_max_perm h, foldr_max_range']
  rcases Nat.eq_zero_or_pos (rankedPositions s).length with h0 | h0
  · simp [h0]
  · have : (rankedPositions s).length ≠ 0 := Nat.pos_iff_ne_zero.mp h0
    simp only [this, if_neg, if_false]
    omega

theorem range'_split {a b n : Nat} (h : n = a + b) :
    List.range' 1 n = List.range' 1 a ++ List.range' (1 + a) b := by
  subst h
  have h2 := List.range'_append 1 a b 1
  simp only [Nat.one_mul] at h2
  rw [Nat.add_comm a b, ← h2]

theorem map_insShift_low {t m : Nat} (h : m + 1 ≤ t) :
    (List.range' 1 m).map (insShift t) = List.range' 1 m := by
  have h0 : ∀ x ∈ List.range' 1 m, insShift t x = id x := by
    intro x hx
    rcases List.mem_range'_1.mp hx with ⟨_, hxm⟩
    have hlt : ¬ t ≤ x := by omega
    simp [insShift, hlt]
  rw [List.map_congr_left h0, List.map_id]

theorem map_insShift_high (t m : Nat) :
    (List.range' t m).map (insShift t) = List.range' (t + 1) m := by
  have h0 : ∀ x ∈ List.range' t m, insShift t x = 1 + x := by
    intro x hx
    rcases List.mem_range'_1.mp hx with ⟨hxt, _⟩
    simp only [insShift, if_pos hxt]
    omega
  rw [List.map_congr_left h0, List.map_add_range', Nat.add_comm 1 t]

/-- Inserting at a valid target turns the positions `[1..n]`, shifted, plus
the target itself into exactly `[1..n+1]`. -/
theorem insert_positions_perm {t n : Nat} (h1 : 1 ≤ t) (h2 : t ≤ n + 1) :
    (t :: (List.range' 1 n).map (insShift t)).Perm (List.range' 1 (n + 1)) := by
  have hsplit : List.range' 1 n = List.range' 1 (t - 1) ++ List.range' t (n + 1 - t) := by
    have h3 := @range'_split (t - 1) (n + 1 - t) n (by omega)
    rwa [show 1 + (t - 1) = t by omega] at h3
  rw [hsplit, List.map_append, map_insShift_low (by omega), map_insShift_high]
  have hmid := (@List.perm_middle Nat t (List.range' 1 (t - 1))
    (List.range' (t + 1) (n + 1 - t))).symm
  refine hmid.trans ?_
  have hcons : t :: List.range' (t + 1) (n + 1 - t) = List.range' t (n + 1 - t + 1) := by
    rw [List.range'_succ]
  rw [hcons]
  have h4 := @range'_split (t - 1) (n + 1 - t + 1) (n + 1) (by omega)
  rw [show 1 + (t - 1) = t by omega] at h4
  rw [← h4]

/-- Removing a held position from `[1..n]` and shifting the survivors down
yields exactly `[1..n-1]`. -/
theorem remove_positions_eq {src n : Nat} (h1 : 1 ≤ src) (h2 : src ≤ n) :
    ((List.range' 1 n).erase src).map (remShift src) = List.range' 1 (n - 1) := by
  have hsplit : List.range' 1 n
      = List.range' 1 (src - 1) ++ src :: List.range' (src + 1) (n - src) := by
    have h3 := @range'_split (src - 1) (n - src + 1) n (by omega)
    rw [show 1 + (src - 1) = src by omega] at h3
    rw [h3, List.range'_succ]
  have hsrcnot : src ∉ List.range' 1 (src - 1) := by
    intro hmem
    rcases List.mem_range'_1.mp hmem with ⟨_, hlt⟩
    omega
  rw [hsplit, List.erase_append_right _ hsrcnot, List.erase_cons_head, List.map_append]
  have hlow : (List.range' 1 (src - 1)).map (remShift src) = List.range' 1 (src - 1) := by
    have h0 : ∀ x ∈ List.range' 1 (src - 1), remShift src x = id x := by
      intro x hx
      rcases List.mem_range'_1.mp hx with ⟨_, hxm⟩
      have hnx : ¬ src < x := by omega
      simp [remShift, hnx]
    rw [List.map_congr_left h0, List.map_id]
  have hhigh : (List.range' (src + 1) (n - src)).map (remShift src)
      = List.range' src (n - src) := by
    have hrw : List.range' (src + 1) (n - src)
        = (List.range' src (n - src)).map (fun x => 1 + x) := by
      rw [List.map_add_range', Nat.add_comm 1 src]
    have h0 : ∀ x ∈ List.range' src (n - src), (remShift src ∘ fun x => 1 + x) x = id x := by
      intro x hx
      rcases List.mem_range'_1.mp hx with ⟨hxs, _⟩
      have hp : src < 1 + x := by omega
      simp only [Function.comp, remShift, if_pos hp, id]
      omega
    rw [hrw, List.map_map, List.map_congr_left h0, List.map_id]
  rw [hlow, hhigh]
  have h4 := @range'_split (src - 1) (n - src) (n - 1) (by omega)
  rw [show 1 + (src - 1) = src by omega] at h4
  rw [← h4]

/-- Away from the vacated source position, the move shift is the insert
shift after the removal shift. -/
theorem moveShift_eq_comp {src t p : Nat} (hne : p ≠ src) :
    moveShift src t p = insShift t (remShift src p) := by
  unfold moveShift insShift remShift
  split_ifs <;> omega

/-- Moving a held position of `[1..n]` to a valid target reproduces a
permutation of `[1..n]`. -/
theorem move_positions_perm {src t n : Nat} (hs1 : 1 ≤ src) (hs2 : src ≤ n)
    (ht1 : 1 ≤ t) (ht2 : t ≤ n) :
    (t :: ((List.range' 1 n).erase src).map (moveShift src t)).Perm
      (List.range' 1 n) := by
  have hmapeq : ((List.range' 1 n).erase src).map (moveShift src t)
      = ((List.range' 1 n).erase src).map (insShift t ∘ remShift src) := by
    apply List.map_congr_left
    intro x hx
    have hnd : (List.range' 1 n).Nodup := List.nodup_range' 1 n
    have hne : x ≠ src := ((List.Nodup.mem_erase_iff hnd).mp hx).1
    exact moveShift_eq_comp hne
  rw [hmapeq, ← List.map_map, remove_positions_eq hs1 hs2]
  have hperm := @insert_positions_perm t (n - 1) ht1 (by omega)
  rwa [show n - 1 + 1 = n by omega] at hperm

theorem rankedPositions_map_posApply (f : Nat → Nat) (s : List PimDemon) :
    rankedPositions (s.map (posApply f)) = (rankedPositions s).map f := by
  induction s with
  | nil => rfl
  | cons d s ih =>
      rcases hd : d.position with _ | p
        <;> simp only [rankedPositions, List.map_cons, List.filterMap_cons, posApply, hd,
              Option.map_none', Option.map_some', List.map_nil] at ih ⊢
        <;> simp [ih]

theorem find_decompose {s : List PimDemon} {id : Nat} {d : PimDemon}
    (hfind : s.find? (fun e => e.id == id) = some d) :
    d ∈ s ∧ d.id = id := by
  have h1 := List.mem_of_find?_eq_some hfind
  have h2 := List.find?_some hfind
  simp only [beq_iff_eq] at h2
  exact ⟨h1, h2⟩

theorem erase_id_ne {s : List PimDemon} {d e : PimDemon}
    (hnodup : nodupIds s) (hd : d ∈ s) (he : e ∈ s.erase d) :
    e.id ≠ d.id := by
  have hperm : s.Perm (d :: s.erase d) := List.perm_cons_erase hd
  have hids : (s.map (fun x => x.id)).Perm (d.id :: (s.erase d).map (fun x => x.id)) := by
    simpa using hperm.map (fun x => x.id)
  have hnd : (d.id :: (s.erase d).map (fun x => x.id)).Nodup := hids.nodup_iff.mp hnodup
  have hnotin : d.id ∉ (s.erase d).map (fun x => x.id) := (List.nodup_cons.mp hnd).1
  intro heq
  exact hnotin (heq ▸ List.mem_map_of_mem (fun x => x.id) he)

theorem rankedPositions_cons_erase {s : List PimDemon} {d : PimDemon} (hd : d ∈ s) :
    (rankedPositions s).Perm (d.position.toList ++ rankedPositions (s.erase d)) := by
  have hperm := (List.perm_cons_erase hd).filterMap (fun e => e.position)
  refine hperm.trans ?_
  rcases hp : d.position with _ | p
    <;> simp [rankedPositions, List.filterMap_cons, hp]

theorem rankedPositions_update_perm {s : List PimDemon} {id : Nat} {d : PimDemon}
    (A : PimDemon → PimDemon) (g : Nat → Nat)
    (hfind : s.find? (fun e => e.id == id) = some d)
    (hnodup : nodupIds s) :
    (rankedPositions (s.map (fun e => if e.id = id then A e else posApply g e))).Perm
      ((A d).position.toList ++ (rankedPositions (s.erase d)).map g) := by
  obtain ⟨hd, hdid⟩ := find_decompose hfind
  have hperm : s.Perm (d :: s.erase d) := List.perm_cons_erase hd
  have hmap := hperm.map (fun e => if e.id = id then A e else posApply g e)
  have hhead : (if d.id = id then A d else posApply g d) = A d := if_pos hdid
  have htail : (s.erase d).map (fun e => if e.id = id then A e else posApply g e)
      = (s.erase d).map (posApply g) := by
    apply List.map_congr_left
    intro e he
    have hne : e.id ≠ id := hdid ▸ erase_id_ne hnodup hd he
    exact if_neg hne
  rw [List.map_cons, hhead, htail] at hmap
  have h2 := hmap.filterMap (fun e => e.position)
  refine h2.trans ?_
  show (rankedPositions (A d :: (s.erase d).map (posApply g))).Perm _
  rcases hp : (A d).position with _ | p
    <;> simp [rankedPositions, List.filterMap_cons, hp,
          (by simpa [rankedPositions] using rankedPositions_map_posApply g (s.erase d) :
            ((s.erase d).map (posApply g)).filterMap (fun e => e.position)
              = ((s.erase d).filterMap (fun e => e.position)).map g)]

theorem nodupIds_map_preserve {s : List PimDemon} (F : PimDemon → PimDemon)
    (hF : ∀ e, (F e).id = e.id) (h : nodupIds s) : nodupIds (s.map F) := by
  unfold nodupIds at h ⊢
  rw [List.map_map]
  have heq : ((fun d => d.id) ∘ F) = fun d => d.id := funext fun e => hF e
  rw [heq]
  exact h

theorem pimInsert_good {s s2 : List PimDemon} {t : Nat}
    (hnodup : nodupIds s) (hcont : contiguous s)
    (hok : pimInsert s t = Except.ok s2) :
    nodupIds s2 ∧ contiguous s2 := by
  unfold pimInsert at hok
  split at hok
  case isFalse => simp at hok
  case isTrue hvalid =>
    obtain ⟨ht1, ht2⟩ := hvalid
    injection hok with hok
    subst hok
    have hmax := maxPosition_eq_length hcont
    constructor
    · unfold nodupIds
      rw [List.map_cons, List.map_map]
      have heq : ((fun d => d.id) ∘ posApply (insShift t)) = fun d : PimDemon => d.id :=
        funext fun e => rfl
      rw [heq, List.nodup_cons]
      refine ⟨fun hmem => ?_, hnodup⟩
      have hle : freshId s ≤ (s.map (fun d => d.id)).foldr max 0 := mem_le_foldr_max hmem
      unfold freshId at hle
      omega
    · unfold contiguous
      have hrp : rankedPositions (⟨freshId s, some t⟩ :: s.map (posApply (insShift t)))
          = t :: (rankedPositions s).map (insShift t) := by
        simp [rankedPositions, List.filterMap_cons,
          (by simpa [rankedPositions] using
            rankedPositions_map_posApply (insShift t) s :
            (s.map (posApply (insShift t))).filterMap (fun e => e.position)
              = (s.filterMap (fun e => e.position)).map (insShift t))]
      rw [hrp]
      have hlen : (t :: (rankedPositions s).map (insShift t)).length
          = (rankedPositions s).length + 1 := by simp
      rw [hlen]
      have hperm1 : ((rankedPositions s).map (insShift t)).Perm
          ((List.range' 1 (rankedPositions s).length).map (insShift t)) :=
        hcont.map (insShift t)
      exact (hperm1.cons t).trans (insert_positions_perm ht1 (by omega))

theorem pimRemove_good {s s2 : List PimDemon} {id : Nat}
    (hnodup : nodupIds s) (hcont : contiguous s)
    (hok : pimRemove s id = Except.ok s2) :
    nodupIds s2 ∧ contiguous s2 := by
  unfold pimRemove at hok
  split at hok
  · simp at hok
  · rename_i d hfind
    split at hok
    · injection hok with hok
      subst hok
      exact ⟨hnodup, hcont⟩
    · rename_i src hpos
      injection hok with hok
      subst hok
      obtain ⟨hd, hdid⟩ := find_decompose hfind
      have hupd := rankedPositions_update_perm
        (fun e => { e with position := none }) (remShift src) hfind hnodup
      simp only [Option.toList, List.nil_append] at hupd
      have hconse := rankedPositions_cons_erase hd
      rw [hpos] at hconse
      simp only [Option.toList, List.singleton_append] at hconse
      have hsrcmem : src ∈ List.range' 1 (rankedPositions s).length :=
        hcont.subset (hconse.symm.subset (List.mem_cons_self src _))
      obtain ⟨hsrc1, hsrc2⟩ := List.mem_range'_1.mp hsrcmem
      have herase : (rankedPositions (s.erase d)).Perm
          ((List.range' 1 (rankedPositions s).length).erase src) :=
        (((hconse.symm.trans hcont).trans (List.perm_cons_erase hsrcmem))).cons_inv
      constructor
      · refine nodupIds_map_preserve _ (fun e => ?_) hnodup
        by_cases he : e.id = id <;> simp [he, posApply]
      · have hfinal : (rankedPositions (s.map (fun e =>
            if e.id = id then { e with position := none }
            else posApply (remShift src) e))).Perm
            (List.range' 1 ((rankedPositions s).length - 1)) := by
          refine hupd.trans ((herase.map (remShift src)).trans ?_)
          rw [remove_positions_eq hsrc1 (by omega)]
        unfold contiguous
        rw [hfinal.length_eq, List.length_range']
        exact hfinal

theorem pimMove_good {s s2 : List PimDemon} {id t : Nat}
    (hnodup : nodupIds s) (hcont : contiguous s)
    (hok : pimMove s id t = Except.ok s2) :
    nodupIds s2 ∧ contiguous s2 := by
  unfold pimMove at hok
  split at hok
  · simp at hok
  · rename_i d hfind
    split at hok
    · simp at hok
    · rename_i src hpos
      split at hok
      · injection hok with hok
        subst hok
        exact ⟨hnodup, hcont⟩
      · rename_i hne
        split at hok
        · rename_i hvalid
          obtain ⟨ht1, ht2⟩ := hvalid
          injection hok with hok
          subst hok
          obtain ⟨hd, hdid⟩ := find_decompose hfind
          have hmax := maxPosition_eq_length hcont
          have hupd := rankedPositions_update_perm
            (fun e => { e with position := some t }) (moveShift src t) hfind hnodup
          simp only [Option.toList, List.singleton_append] at hupd
          have hconse := rankedPositions_cons_erase hd
          rw [hpos] at hconse
          simp only [Option.toList, List.singleton_append] at hconse
          have hsrcmem : src ∈ List.range' 1 (rankedPositions s).length :=
            hcont.subset (hconse.symm.subset (List.mem_cons_self src _))
          obtain ⟨hsrc1, hsrc2⟩ := List.mem_range'_1.mp hsrcmem
          have herase : (rankedPositions (s.erase d)).Perm
              ((List.range' 1 (rankedPositions s).length).erase src) :=
            (((hconse.symm.trans hcont).trans (List.perm_cons_erase hsrcmem))).cons_inv
          constructor
          · refine nodupIds_map_preserve _ (fun e => ?_) hnodup
            by_cases he : e.id = id <;> simp [he, posApply]
          · have hfinal : (rankedPositions (s.map (fun e =>
                if e.id = id then { e with position := some t }
                else posApply (moveShift src t) e))).Perm
                (List.range' 1 (rankedPositions s).length) := by
              refine hupd.trans ?_
              refine (((herase.map (moveShift src t)).cons t)).trans ?_
              exact move_positions_perm hsrc1 (by omega) ht1 (by omega)
            unfold contiguous
            rw [hfinal.length_eq, List.length_range']
            exact hfinal
        · simp at hok

theorem applyPimOp_good {s : List PimDemon} (op : PimOp)
    (hnodup : nodupIds s) (hcont : contiguous s) :
    nodupIds (applyPimOp s op) ∧ contiguous (applyPimOp s op) := by
  cases op with
  | insert t =>
      rcases hres : pimInsert s t with e | s2
      · simp only [applyPimOp, hres]
        exact ⟨hnodup, hcont⟩
      · simp only [applyPimOp, hres]
        exact pimInsert_good hnodup hcont hres
  | move id t =>
      rcases hres : pimMove s id t with e | s2
      · simp only [applyPimOp, hres]
        exact ⟨hnodup, hcont⟩
      · simp only [applyPimOp, hres]
        exact pimMove_good hnodup hcont hres
  | remove id =>
      rcases hres : pimRemove s id with e | s2
      · simp only [applyPimOp, hres]
        exact ⟨hnodup, hcont⟩
      · simp only [applyPimOp, hres]
        exact pimRemove_good hnodup hcont hres

theorem applyPimOps_good (ops : List PimOp) :
    ∀ s, nodupIds s → contiguous s →
      nodupIds (ops.foldl applyPimOp s) ∧ contiguous (ops.foldl applyPimOp s) := by
  induction ops with
  | nil => exact fun s h1 h2 => ⟨h1, h2⟩
  | cons op ops ih =>
      intro s h1 h2
      have h3 := applyPimOp_good op h1 h2
      exact ih _ h3.1 h3.2

/-- C2: contiguity invariant of the Position Invariant Manager (modelled
from spec §4.1): for every sequence of insert, move and remove operations
(run from the empty list; a prefix of a sequence is itself a sequence, so
this covers the state after each individual operation), the non-null demon
positions are exactly the contiguous range `{1, ..., count}`, with no
duplicates and no gaps. -/
theorem pim_contiguity (ops : List PimOp) : contiguous (applyPimOps ops) :=
  (applyPimOps_good ops [] (by simp [nodupIds])
    (by unfold contiguous rankedPositions; simp)).2
